import Mathlib

/-!
Verification of the session-establishment core of geph4-client
(`src/connect/tunnel/getsess.rs`), as a shallow embedding in Lean 4.

The embedding models:
* `parse_independent_endpoint` — the endpoint parser, including its
  possible panic (the `unwrap` on the 32-byte array conversion);
* the end-to-end key extraction loop of `get_session`;
* the assembly fan-out of dials over the bridge list;
* the pipe-healer background loop, as a state-transition function driven
  by an explicit trace of environment events (directory responses,
  shuffled bridge lists, dial outcomes, weak-upgrade outcomes);
* `connect_once` — the per-bridge pipe dialer.

External collaborators (the `hex` crate, `bincode`, Rust std's
`SocketAddr` text codec) are modelled from the spec where noted.
-/

deriving instance DecidableEq for Except

/-- Model of Rust's `str::split(sep)`: splits on every occurrence of the
separator, keeping empty parts; the result always has one more element
than the number of separators, hence is never empty. -/
def rustSplit (sep : Char) : List Char → List (List Char)
  | [] => [[]]
  | c :: cs =>
    if c = sep then [] :: rustSplit sep cs
    else
      match rustSplit sep cs with
      | [] => [[c]]
      | p :: ps => (c :: p) :: ps

/-- Modelled from the spec: value of one hex digit, as accepted by the
`hex` crate's decoder (`hex::decode` accepts both cases). -/
def hexDigitVal (c : Char) : Option Nat :=
  if '0' ≤ c ∧ c ≤ '9' then some (c.toNat - '0'.toNat)
  else if 'a' ≤ c ∧ c ≤ 'f' then some (c.toNat - 'a'.toNat + 10)
  else if 'A' ≤ c ∧ c ≤ 'F' then some (c.toNat - 'A'.toNat + 10)
  else none

/-- Modelled from the spec: `hex::decode` — requires an even number of
characters, all hex digits; yields one byte per digit pair. -/
def hexDecode : List Char → Option (List Nat)
  | [] => some []
  | [_] => none
  | c1 :: c2 :: rest =>
    match hexDigitVal c1, hexDigitVal c2, hexDecode rest with
    | some h, some l, some bs => some ((16 * h + l) :: bs)
    | _, _, _ => none

/-- Lowercase hex digit for a value below 16 (as produced by `hex::encode`). -/
def hexDigitChar (n : Nat) : Char :=
  if n < 10 then Char.ofNat ('0'.toNat + n) else Char.ofNat ('a'.toNat + n - 10)

/-- Modelled from the spec: `hex::encode` — two lowercase hex digits per byte. -/
def hexEncode : List Nat → List Char
  | [] => []
  | b :: bs => hexDigitChar (b / 16) :: hexDigitChar (b % 16) :: hexEncode bs

/-- Decimal digit character. -/
def digitChar (n : Nat) : Char := Char.ofNat ('0'.toNat + n)

/-- Fuel-driven accumulator loop rendering a positive number in decimal
(most significant digit first).  Structural in the fuel so that the
kernel can evaluate it. -/
def natCharsAux : Nat → Nat → List Char → List Char
  | 0, _, acc => acc
  | fuel + 1, n, acc =>
    if n = 0 then acc else natCharsAux fuel (n / 10) (digitChar (n % 10) :: acc)

/-- Decimal rendering of a natural number. -/
def natChars (n : Nat) : List Char :=
  if n = 0 then ['0'] else natCharsAux (n + 1) n []

/-- Socket address, IPv4 dotted-quad form with a port, modelling the
`std::net::SocketAddr` values the parser produces.  Range constraints
are enforced by the text codec, not by the type. -/
structure SockAddr where
  ip0 : Nat
  ip1 : Nat
  ip2 : Nat
  ip3 : Nat
  port : Nat
deriving DecidableEq

/-- Modelled from the spec: decimal parse of a nonempty all-digit string. -/
def parseDecimal (cs : List Char) : Option Nat :=
  match cs with
  | [] => none
  | _ =>
    cs.foldl
      (fun acc c =>
        match acc with
        | none => none
        | some n => if c.isDigit then some (n * 10 + (c.toNat - '0'.toNat)) else none)
      (some 0)

/-- Modelled from the spec: one IPv4 octet — decimal, at most 255, no
leading zeros (as in Rust std's `Ipv4Addr` parser). -/
def parseOctet (cs : List Char) : Option Nat :=
  match parseDecimal cs with
  | none => none
  | some n =>
    if n ≤ 255 && (cs.length == 1 || !(cs.headD ' ' == '0')) then some n else none

/-- Modelled from the spec: Rust std's dotted-quad IPv4 parse. -/
def parseIpv4 (cs : List Char) : Option (Nat × Nat × Nat × Nat) :=
  match rustSplit '.' cs with
  | [w, x, y, z] => do
    let a ← parseOctet w
    let b ← parseOctet x
    let c ← parseOctet y
    let d ← parseOctet z
    some (a, b, c, d)
  | _ => none

/-- Modelled from the spec: port number — decimal, at most 65535. -/
def parsePort (cs : List Char) : Option Nat :=
  match parseDecimal cs with
  | none => none
  | some n => if n ≤ 65535 then some n else none

/-- Modelled from the spec: Rust std's `SocketAddr` `FromStr` for the
IPv4 form `a.b.c.d:port`.  This codec lives outside the repository; the
parser under verification only delegates to it. -/
def parseSockAddr (cs : List Char) : Option SockAddr :=
  match rustSplit ':' cs with
  | [ipCs, portCs] => do
    let ip ← parseIpv4 ipCs
    let p ← parsePort portCs
    some ⟨ip.1, ip.2.1, ip.2.2.1, ip.2.2.2, p⟩
  | _ => none

/-- Modelled from the spec: Rust std's `Display` for an IPv4 socket
address — `a.b.c.d:port` in decimal. -/
def formatSockAddr (a : SockAddr) : List Char :=
  natChars a.ip0 ++ '.' :: natChars a.ip1 ++ '.' :: natChars a.ip2
    ++ '.' :: natChars a.ip3 ++ ':' :: natChars a.port

/-- Outcome of running a fallible Rust function that may also panic. -/
inductive ParseOutcome (α : Type) where
  | ok : α → ParseOutcome α
  | err : String → ParseOutcome α
  | panicked : ParseOutcome α
deriving DecidableEq

/-- Embedding of `parse_independent_endpoint`.  Mirrors the source:
split the input on the at-sign; hex-decode the first part (error
`PK is not hex` on failure); convert to a 32-byte array — the source
calls `.unwrap()` here, so a byte length other than 32 panics; fetch the
second part (error `URL not in form PK@host:port` when absent); parse it
as a socket address (error `cannot parse host:port` on failure). -/
def parse_independent_endpoint (endpoint : String) : ParseOutcome (SockAddr × List Nat) :=
  let pk_and_url := rustSplit '@' endpoint.toList
  match pk_and_url.head? with
  | none => .err "URL not in form PK@host:port"
  | some pkPart =>
    match hexDecode pkPart with
    | none => .err "PK is not hex"
    | some bytes =>
      if bytes.length = 32 then
        match pk_and_url.get? 1 with
        | none => .err "URL not in form PK@host:port"
        | some addrPart =>
          match parseSockAddr addrPart with
          | none => .err "cannot parse host:port"
          | some addr => .ok (addr, bytes)
      else .panicked

/-- The endpoint text format of the round-trip property: lowercase hex
of the key, an at-sign, then the textual socket address. -/
def formatEndpoint (k : List Nat) (a : SockAddr) : String :=
  String.mk (hexEncode k ++ '@' :: formatSockAddr a)

/-- Bridge descriptor as consumed by `get_session` and `connect_once`:
protocol tag, endpoint address, opaque key blob (bytes), allocation
group.  (The record lives in `geph4_protocol`; only these four fields
are read by the code under verification.) -/
structure BridgeDescriptor where
  protocol : String
  endpoint : SockAddr
  sosistab_key : List Nat
  alloc_group : String
deriving DecidableEq

/-- Modelled from the spec: `bincode::deserialize` of the key blob at
type `(ObfsUdpPublic, MuxPublic)` — a length-free encoding of two
32-byte keys; succeeds exactly on 64-byte blobs, yielding the two
halves `(transport-public-key, multiplex-public-key)`. -/
def decodeKeys (bs : List Nat) : Option (List Nat × List Nat) :=
  if bs.length = 64 then some (bs.take 32, bs.drop 32) else none

/-- Embedding of the key-extraction block of `get_session`: iterate over
the bridge list; on every `sosistab2-obfsudp` descriptor whose blob
deserializes, overwrite `seen` with the multiplex key (the second
component); finally fail with the `context` message when `seen` is
still empty. -/
def extractE2EKey (bridges : List BridgeDescriptor) : Except String (List Nat) :=
  let seen := bridges.foldl
    (fun seen bridge =>
      if bridge.protocol = "sosistab2-obfsudp" then
        match decodeKeys bridge.sosistab_key with
        | some val => some val.2
        | none => seen
      else seen)
    none
  match seen with
  | some k => .ok k
  | none => .error "cannot deduce the sosistab2 MuxPublic of this exit"

/-- The multiplex key a single descriptor contributes: its blob's second
half, provided the protocol tag matches and the blob deserializes. -/
def muxKeyOf (b : BridgeDescriptor) : Option (List Nat) :=
  if b.protocol = "sosistab2-obfsudp" then
    match decodeKeys b.sosistab_key with
    | some val => some val.2
    | none => none
  else none

/-- Stated from the spec's words (for comparison with the code): the
multiplex key of the FIRST descriptor, in scan order, that contributes
one. -/
def firstMuxKey : List BridgeDescriptor → Option (List Nat)
  | [] => none
  | b :: rest =>
    match muxKeyOf b with
    | some v => some v
    | none => firstMuxKey rest

/-- The multiplex key of the LAST descriptor, in scan order, that
contributes one (later descriptors take priority). -/
def lastMuxKey : List BridgeDescriptor → Option (List Nat)
  | [] => none
  | b :: rest =>
    match lastMuxKey rest with
    | some v => some v
    | none => muxKeyOf b

/-- The session-identifier string built at assembly time:
`format!("sess-{}", rand::thread_rng().gen::<u128>())`. -/
def sessIdOf (r : Nat) : String := "sess-" ++ toString r

/-- One dial attempt issued to a pipe constructor, as visible on the
wire: which constructor, the endpoint, the key material handed over,
and the metadata (session-identifier) string. -/
inductive DialAttempt where
  | udp : SockAddr → List Nat → String → DialAttempt
  | tls : SockAddr → List Nat → String → DialAttempt
deriving DecidableEq

/-- Result of `connect_once`: the dial attempts it issued and its
overall outcome. -/
structure ConnectResult where
  attempts : List DialAttempt
  result : Except String Unit
deriving DecidableEq

/-- Embedding of `connect_once`.  Branches on the protocol tag:
`sosistab2-obfsudp` deserializes the key blob (error `cannot decode
keys` on failure) and dials the UDP constructor with the transport key;
`sosistab2-obfstls` dials the TLS constructor with the raw blob; any
other tag fails with `unknown protocol <tag>` without dialing.  The
network outcome of a dial (success, failure or the 10-second timeout)
is supplied by the environment as `dial`; the status-callback and the
TLS configuration carry no information relevant to the claims and are
not tracked. -/
def connect_once (desc : BridgeDescriptor) (meta : String)
    (dial : Except String Unit) : ConnectResult :=
  if desc.protocol = "sosistab2-obfsudp" then
    match decodeKeys desc.sosistab_key with
    | none => ⟨[], .error "cannot decode keys"⟩
    | some keys => ⟨[.udp desc.endpoint keys.1 meta], dial⟩
  else if desc.protocol = "sosistab2-obfstls" then
    ⟨[.tls desc.endpoint desc.sosistab_key meta], dial⟩
  else
    ⟨[], .error ("unknown protocol " ++ desc.protocol)⟩

/-- Embedding of the assembly fan-out of `get_session`: one detached
dial is spawned per bridge, skipping (`continue`) every bridge whose
allocation group is `direct` when `use_bridges` is set.  Each spawned
dial receives a clone of the one session-identifier string. -/
def assemblyDials (useBridges : Bool) (sessId : String) :
    List BridgeDescriptor → List (BridgeDescriptor × String)
  | [] => []
  | bridge :: rest =>
    if useBridges && bridge.alloc_group == "direct" then
      assemblyDials useBridges sessId rest
    else
      (bridge, sessId) :: assemblyDials useBridges sessId rest

/-- The bridges actually attached by the assembly fan-out: those of the
spawned dials whose `connect_once` succeeded (`ok` is the environment's
per-bridge dial outcome). -/
def assemblyAttached (useBridges : Bool) (sessId : String)
    (bridges : List BridgeDescriptor) (ok : BridgeDescriptor → Bool) :
    List BridgeDescriptor :=
  ((assemblyDials useBridges sessId bridges).filter fun p => ok p.1).map fun p => p.1

/-- Environment of one pass through the healer's inner `fallible` block:
the directory's answer (`none` = `get_bridges_v2` failed; `some l` = the
returned list, already in its post-shuffle order, the shuffle being
uniformly random) and the outcome of the dial, consulted only when a
dial is attempted. -/
structure RoundEnv where
  fetch : Option (List BridgeDescriptor)
  dialOk : Bool
deriving DecidableEq

/-- Environment of one wake of the healer's outer `loop`: the result of
upgrading the weak multiplex reference (`some n` = alive, with `n` dead
pipes pruned by `clear_dead_pipes`; `none` = the upgrade failed), and
the trace of inner rounds available during this wake. -/
structure WakeEnv where
  upgrade : Option Nat
  rounds : List RoundEnv
deriving DecidableEq

/-- Observable state of the healer task: the `dead_count` variable, the
number of directory queries issued, the trace of `connect_once`
invocations (bridge and metadata string), the bridges attached via
`add_pipe`, the number of errors logged at warn level, and the number of
iterations of the outer loop begun (each starts by waiting for activity
and sleeping the jitter). -/
structure HealState where
  deadCount : Nat
  fetches : Nat
  dialed : List (BridgeDescriptor × String)
  attached : List BridgeDescriptor
  errs : Nat
  iters : Nat
deriving DecidableEq

/-- The healer's state at task start: `let mut dead_count = 0;`. -/
def initHealState : HealState := ⟨0, 0, [], [], 0, 0⟩

/-- Embedding of one pass through the healer's `fallible` block plus the
`if let Err` logging around it: query the directory (on failure, log —
`dead_count` unchanged); if the shuffled list is empty, skip the dial
and decrement `dead_count`; if its first bridge is `direct` under
bridges-only, `return Ok(())` — nothing changes; otherwise call
`connect_once` on the first bridge with the session identifier, and on
success attach the pipe and decrement `dead_count` (a failed dial is
logged and decrements nothing). -/
def healInnerStep (useBridges : Bool) (sessId : String) (env : RoundEnv)
    (st : HealState) : HealState :=
  let st := { st with fetches := st.fetches + 1 }
  match env.fetch with
  | none => { st with errs := st.errs + 1 }
  | some bridges =>
    match bridges.head? with
    | none => { st with deadCount := st.deadCount - 1 }
    | some first =>
      if useBridges && first.alloc_group == "direct" then st
      else if env.dialOk then
        { st with
            dialed := st.dialed ++ [(first, sessId)]
            attached := st.attached ++ [first]
            deadCount := st.deadCount - 1 }
      else
        { st with dialed := st.dialed ++ [(first, sessId)], errs := st.errs + 1 }

/-- Embedding of the healer's `while dead_count > 0` loop, run against a
finite prefix of environment events (the real loop keeps iterating as
long as `dead_count > 0`; a finite trace observes any finite number of
its passes). -/
def healInnerLoop (useBridges : Bool) (sessId : String) :
    List RoundEnv → HealState → HealState
  | [], st => st
  | env :: rest, st =>
    if 0 < st.deadCount then
      healInnerLoop useBridges sessId rest (healInnerStep useBridges sessId env st)
    else st

/-- Embedding of one iteration of the healer's outer `loop`: wait for
activity, sleep the jitter (counted by `iters`), then `if let Some =
weak_multiplex.upgrade()`: on failure the body is skipped — the loop
does NOT exit; on success add the pruned count to `dead_count` and run
the inner while-loop. -/
def healerWake (useBridges : Bool) (sessId : String) (w : WakeEnv)
    (st : HealState) : HealState :=
  let st := { st with iters := st.iters + 1 }
  match w.upgrade with
  | none => st
  | some pruned =>
    healInnerLoop useBridges sessId w.rounds
      { st with deadCount := st.deadCount + pruned }

/-- The healer task over a finite trace of wakes.  The source's outer
`loop` has no exit edge of its own: the task ends only when cancelled
externally through the multiplex's drop-friend mechanism. -/
def healerRun (useBridges : Bool) (sessId : String) :
    List WakeEnv → HealState → HealState
  | [], st => st
  | w :: ws, st => healerRun useBridges sessId ws (healerWake useBridges sessId w st)

/-- Demo bridge for the key-extraction counterexample: transport key of
32 bytes `3`, multiplex key of 32 bytes `4`. -/
def demoUdpBridgeA : BridgeDescriptor :=
  ⟨"sosistab2-obfsudp", ⟨1, 1, 1, 1, 1⟩, List.replicate 32 3 ++ List.replicate 32 4, "aws"⟩

/-- Demo bridge for the key-extraction counterexample: transport key of
32 bytes `5`, multiplex key of 32 bytes `6`. -/
def demoUdpBridgeB : BridgeDescriptor :=
  ⟨"sosistab2-obfsudp", ⟨2, 2, 2, 2, 2⟩, List.replicate 32 5 ++ List.replicate 32 6, "aws"⟩

/-- Demo bridge with allocation group `direct`. -/
def demoDirectBridge : BridgeDescriptor :=
  ⟨"sosistab2-obfsudp", ⟨10, 0, 0, 1, 443⟩, List.replicate 64 7, "direct"⟩

/-- Demo bridge with a non-`direct` allocation group. -/
def demoProxyBridge : BridgeDescriptor :=
  ⟨"sosistab2-obfsudp", ⟨10, 0, 0, 2, 443⟩, List.replicate 64 8, "cn1"⟩

/-- Demo healer round: the directory answers with a freshly shuffled
list whose first element is a `direct` bridge. -/
def demoDirectEnv : RoundEnv := ⟨some [demoDirectBridge], true⟩

/-- Demo bridge carrying a protocol tag outside the known vocabulary. -/
def demoUnknownBridge : BridgeDescriptor := ⟨"quic", ⟨5, 5, 5, 5, 5⟩, [1, 2, 3], "aws"⟩

/-- A parser input whose split on the at-sign has three parts: 64 zero
hex digits, a socket address, and a trailing junk part. -/
def threePartInput : String :=
  "0000000000000000000000000000000000000000000000000000000000000000@1.2.3.4:80@x"

/-- The result of `rustSplit` is never the empty list. -/
theorem rustSplit_ne_nil (sep : Char) (cs : List Char) : rustSplit sep cs ≠ [] := by
  cases cs with
  | nil => simp [rustSplit]
  | cons c cs =>
    simp only [rustSplit]
    split
    · simp
    · split <;> simp

/-- The literal fold step of `extractE2EKey` rewritten through `muxKeyOf`. -/
theorem extract_step_eq (seen : Option (List Nat)) (b : BridgeDescriptor) :
    (if b.protocol = "sosistab2-obfsudp" then
       match decodeKeys b.sosistab_key with
       | some val => some val.2
       | none => seen
     else seen)
    = match muxKeyOf b with
      | some v => some v
      | none => seen := by
  unfold muxKeyOf
  by_cases h : b.protocol = "sosistab2-obfsudp"
  · simp only [h, if_true]
    cases decodeKeys b.sosistab_key <;> simp
  · simp [h]

/-- The extraction fold keeps the key of the last contributing
descriptor, falling back to the accumulator when none contributes. -/
theorem extract_foldl_lastMuxKey :
    ∀ (l : List BridgeDescriptor) (acc : Option (List Nat)),
      l.foldl
        (fun seen bridge =>
          if bridge.protocol = "sosistab2-obfsudp" then
            match decodeKeys bridge.sosistab_key with
            | some val => some val.2
            | none => seen
          else seen)
        acc
      = match lastMuxKey l with
        | some v => some v
        | none => acc
  | [], acc => by simp [lastMuxKey]
  | b :: rest, acc => by
    simp only [List.foldl_cons]
    rw [extract_foldl_lastMuxKey rest, extract_step_eq]
    simp only [lastMuxKey]
    cases lastMuxKey rest <;> cases muxKeyOf b <;> simp

/-- C1 (amended): the key extraction of `get_session` returns the
multiplex key of the LAST descriptor, in scan order, whose protocol tag
is `sosistab2-obfsudp` and whose blob deserializes; it fails with the
no-key error when no descriptor contributes. -/
theorem extract_returns_last (bridges : List BridgeDescriptor) :
    extractE2EKey bridges
      = match lastMuxKey bridges with
        | some k => .ok k
        | none => .error "cannot deduce the sosistab2 MuxPublic of this exit" := by
  simp only [extractE2EKey]
  rw [extract_foldl_lastMuxKey]
  cases lastMuxKey bridges <;> simp

/-- C1 counterexample: on a list of two well-formed `sosistab2-obfsudp`
descriptors with distinct multiplex keys, the first key seen in scan
order is 32 bytes of `4`, yet the code returns 32 bytes of `6` — the
LAST seen — refuting Return-the-first. -/
theorem extract_key_not_first :
    firstMuxKey [demoUdpBridgeA, demoUdpBridgeB] = some (List.replicate 32 4)
  ∧ extractE2EKey [demoUdpBridgeA, demoUdpBridgeB] = .ok (List.replicate 32 6)
  ∧ (List.replicate 32 4 : List Nat) ≠ List.replicate 32 6 := by decide

/-- C3: `parse_independent_endpoint` PANICS (the `unwrap` on the
32-byte conversion) on the input `aa@1.2.3.4:80`, whose first part is
valid hex decoding to one byte — instead of returning the typed bad-hex
error the spec requires of a total parser. -/
theorem parse_panics_on_short_hex :
    parse_independent_endpoint "aa@1.2.3.4:80" = ParseOutcome.panicked := by decide

/-- C5 counterexample: an input whose at-sign split yields THREE parts
is not rejected with the malformed-URL error; the parser succeeds,
silently ignoring everything after the second part. -/
theorem parse_accepts_three_parts :
    (rustSplit '@' threePartInput.toList).length = 3
  ∧ parse_independent_endpoint threePartInput
      = .ok (⟨1, 2, 3, 4, 80⟩, List.replicate 32 0) := by decide

/-- C2 counterexample: `dead_count = 1`, and the directory twice hands
back a shuffled list headed by a `direct` bridge.  Under bridges-only
the healer issues TWO directory queries within the single wake — the
policy hit does not stop the healing round, because `return Ok(())`
leaves `dead_count` undecremented and the while-loop re-enters. -/
theorem healer_direct_first_requeries :
    healInnerLoop true "sess-0" [demoDirectEnv, demoDirectEnv] ⟨1, 0, [], [], 0, 0⟩
      = ⟨1, 2, [], [], 0, 0⟩ := by decide

/-- C2 (amended): when the first bridge of the freshly shuffled list is
`direct` under bridges-only, the inner pass leaves `dead_count`, the
dial trace, the attached pipes and the error count unchanged (only the
query count grows) — but the healer does NOT stop healing this round:
with `dead_count` still positive the while-loop immediately processes
the next environment event, issuing another directory query within the
same wake. -/
theorem healer_direct_first_retries (sid : String) (b : BridgeDescriptor)
    (rest : List BridgeDescriptor) (dOk : Bool) (st : HealState) (d : Nat)
    (envs : List RoundEnv) :
    healInnerStep true sid ⟨some ({ b with alloc_group := "direct" } :: rest), dOk⟩
        { st with deadCount := d + 1 }
      = { st with deadCount := d + 1, fetches := st.fetches + 1 }
  ∧ healInnerLoop true sid
        (⟨some ({ b with alloc_group := "direct" } :: rest), dOk⟩ :: envs)
        { st with deadCount := d + 1 }
      = healInnerLoop true sid envs
          { st with deadCount := d + 1, fetches := st.fetches + 1 } := by
  constructor
  · simp [healInnerStep]
  · simp [healInnerLoop, healInnerStep]

/-- C4 counterexample: a trace of two wakes on both of which the weak
upgrade fails.  The healer's loop body runs BOTH times (`iters = 2`):
a failed upgrade does not exit the loop, it merely skips that
iteration's body, and the next iteration again waits and retries. -/
theorem healer_continues_past_dead_upgrade :
    healerRun true "sess-0" [⟨none, []⟩, ⟨none, []⟩] initHealState
      = ⟨0, 0, [], [], 0, 2⟩ := by decide

/-- C4 (amended): when the weak-reference upgrade fails, the healer
performs no pruning, no directory query and no dial for that iteration
— but its loop does not terminate: it proceeds to the next iteration of
waiting.  The task itself is destroyed only externally, through the
drop-friend binding, when the multiplex is dropped. -/
theorem healer_no_exit_on_failed_upgrade (ub : Bool) (sid : String)
    (rs : List RoundEnv) (ws : List WakeEnv) (st : HealState) :
    healerWake ub sid ⟨none, rs⟩ st = { st with iters := st.iters + 1 }
  ∧ healerRun ub sid (⟨none, rs⟩ :: ws) st
      = healerRun ub sid ws { st with iters := st.iters + 1 } := by
  exact ⟨rfl, rfl⟩

/-- C9: `connect_once` fails closed on unknown protocols — any
descriptor whose tag is neither `sosistab2-obfsudp` nor
`sosistab2-obfstls` yields the unknown-protocol error naming the tag,
with no dial attempt issued. -/
theorem connect_once_unknown_protocol (desc : BridgeDescriptor) (meta : String)
    (dial : Except String Unit)
    (h1 : desc.protocol ≠ "sosistab2-obfsudp")
    (h2 : desc.protocol ≠ "sosistab2-obfstls") :
    connect_once desc meta dial
      = ⟨[], .error ("unknown protocol " ++ desc.protocol)⟩ := by
  simp [connect_once, h1, h2]

/-- C9 witness: the theorem applied to a concrete `quic`-tagged bridge. -/
theorem connect_once_unknown_protocol_witness :
    connect_once demoUnknownBridge "m" (.ok ())
      = ⟨[], .error ("unknown protocol " ++ demoUnknownBridge.protocol)⟩ :=
  connect_once_unknown_protocol demoUnknownBridge "m" (.ok ()) (by decide) (by decide)

/-- Draining lemma: with `n = dead_count` consecutive rounds in which
the directory answers with an empty list, the inner loop decrements
`dead_count` to zero, never dialing or attaching. -/
theorem healInner_drain (ub : Bool) (sid : String) (dOk : Bool) :
    ∀ (n : Nat) (st : HealState), st.deadCount = n →
      healInnerLoop ub sid (List.replicate n ⟨some [], dOk⟩) st
        = { st with deadCount := 0, fetches := st.fetches + n }
  | 0, st, h => by
    simp only [List.replicate, healInnerLoop, Nat.add_zero]
    rw [← h]
  | n + 1, st, h => by
    simp only [List.replicate, healInnerLoop, h]
    rw [if_pos (Nat.succ_pos n)]
    have hstep : healInnerStep ub sid ⟨some [], dOk⟩ st
        = { st with deadCount := st.deadCount - 1, fetches := st.fetches + 1 } := rfl
    rw [hstep, healInner_drain ub sid dOk n _ (by simp [h])]
    have harith : st.fetches + 1 + n = st.fetches + (n + 1) := by omega
    simp [harith]

/-- C10: a healing round whose freshly fetched bridge list is empty
still decrements `dead_count` by one, without any dial or attachment;
consequently, with a persistently empty directory response,
`dead_count` many such rounds drain it to zero with the dial trace and
the attached-pipe list untouched — the dead pipes are written off
without replacements. -/
theorem healer_empty_list_decrements (ub : Bool) (sid : String) (dOk : Bool)
    (st : HealState) :
    healInnerStep ub sid ⟨some [], dOk⟩ st
      = { st with deadCount := st.deadCount - 1, fetches := st.fetches + 1 }
  ∧ healInnerLoop ub sid (List.replicate st.deadCount ⟨some [], dOk⟩) st
      = { st with deadCount := 0, fetches := st.fetches + st.deadCount } := by
  exact ⟨rfl, healInner_drain ub sid dOk st.deadCount st rfl⟩

/-- C5 (amended): the parser returns the malformed-URL error exactly
when the at-sign split yields fewer than two parts (i.e. exactly one —
the split is never empty) AND the sole part is valid hex decoding to
exactly 32 bytes (otherwise the bad-hex error, or the panic of C3,
strikes first); a split of three or more parts is NOT rejected — parts
beyond the second are ignored.  It returns the bad-hex error exactly
when the first part is not valid hex, regardless of the part count. -/
theorem parse_error_conditions (s : String) :
    (parse_independent_endpoint s = .err "PK is not hex"
       ↔ hexDecode ((rustSplit '@' s.toList).headD []) = none)
  ∧ (parse_independent_endpoint s = .err "URL not in form PK@host:port"
       ↔ (rustSplit '@' s.toList).length = 1
          ∧ ∃ bs, hexDecode ((rustSplit '@' s.toList).headD []) = some bs
              ∧ bs.length = 32) := by
  have hs1 : "PK is not hex" ≠ "URL not in form PK@host:port" := by decide
  have hs2 : "cannot parse host:port" ≠ "PK is not hex" := by decide
  have hs3 : "cannot parse host:port" ≠ "URL not in form PK@host:port" := by decide
  obtain ⟨p, ps, hps⟩ : ∃ p ps, rustSplit '@' s.toList = p :: ps := by
    cases h : rustSplit '@' s.toList with
    | nil => exact absurd h (rustSplit_ne_nil _ _)
    | cons p ps => exact ⟨p, ps, rfl⟩
  simp only [parse_independent_endpoint, hps, List.head?_cons, List.headD_cons,
    List.length_cons]
  cases hdec : hexDecode p with
  | none => simp [hs1]
  | some bs =>
    by_cases hlen : bs.length = 32
    · simp only [hlen, if_true]
      cases ps with
      | nil => simp [hlen]
      | cons q qs =>
        simp only [List.get?_cons_succ, List.get?_cons_zero, List.length_cons]
        cases haddr : parseSockAddr q with
        | none => simp [hs2, hs3]
        | some a => simp [hlen]
    · simp [hlen]

/-- Every dial of the assembly fan-out carries the session identifier
it was given, and — when `use_bridges` is set — dials no bridge of
allocation group `direct`. -/
theorem assemblyDials_mem (ub : Bool) (sid : String) :
    ∀ (bridges : List BridgeDescriptor), ∀ p ∈ assemblyDials ub sid bridges,
      p.2 = sid ∧ (ub = true → p.1.alloc_group ≠ "direct")
  | [], p, hp => by simp [assemblyDials] at hp
  | b :: rest, p, hp => by
    simp only [assemblyDials] at hp
    by_cases hg : (ub && b.alloc_group == "direct") = true
    · rw [if_pos hg] at hp
      exact assemblyDials_mem ub sid rest p hp
    · rw [if_neg hg] at hp
      rcases List.mem_cons.mp hp with hp | hp
      · subst hp
        refine ⟨rfl, fun hub => ?_⟩
        subst hub
        simpa using hg
      · exact assemblyDials_mem ub sid rest p hp

/-- One healer pass only appends dials that carry the session
identifier and respect the bridges-only policy. -/
theorem healInnerStep_mem (ub : Bool) (sid : String) (env : RoundEnv) (st : HealState) :
    (∀ p ∈ (healInnerStep ub sid env st).dialed,
        p ∈ st.dialed ∨ (p.2 = sid ∧ (ub = true → p.1.alloc_group ≠ "direct")))
  ∧ (∀ b ∈ (healInnerStep ub sid env st).attached,
        b ∈ st.attached ∨ (ub = true → b.alloc_group ≠ "direct")) := by
  obtain ⟨fetch, dOk⟩ := env
  cases fetch with
  | none => exact ⟨fun x hx => Or.inl hx, fun x hx => Or.inl hx⟩
  | some bridges =>
    cases hb : bridges.head? with
    | none =>
      simp only [healInnerStep, hb]
      exact ⟨fun x hx => Or.inl hx, fun x hx => Or.inl hx⟩
    | some first =>
      simp only [healInnerStep, hb]
      by_cases hg : (ub && first.alloc_group == "direct") = true
      · rw [if_pos hg]
        exact ⟨fun x hx => Or.inl hx, fun x hx => Or.inl hx⟩
      · rw [if_neg hg]
        have hfirst : ub = true → first.alloc_group ≠ "direct" := by
          intro hub
          subst hub
          simpa using hg
        cases dOk with
        | true =>
          simp only [if_true]
          constructor
          · intro p hp
            rcases List.mem_append.mp hp with hp | hp
            · exact Or.inl hp
            · rcases List.mem_singleton.mp hp with rfl
              exact Or.inr ⟨rfl, hfirst⟩
          · intro b hb2
            rcases List.mem_append.mp hb2 with hb2 | hb2
            · exact Or.inl hb2
            · rcases List.mem_singleton.mp hb2 with rfl
              exact Or.inr hfirst
        | false =>
          simp only [Bool.false_eq_true, if_false]
          constructor
          · intro p hp
            rcases List.mem_append.mp hp with hp | hp
            · exact Or.inl hp
            · rcases List.mem_singleton.mp hp with rfl
              exact Or.inr ⟨rfl, hfirst⟩
          · intro b hb2
            exact Or.inl hb2

/-- The inner while-loop only appends dials that carry the session
identifier and respect the bridges-only policy. -/
theorem healInnerLoop_mem (ub : Bool) (sid : String) :
    ∀ (envs : List RoundEnv) (st : HealState),
      (∀ p ∈ (healInnerLoop ub sid envs st).dialed,
          p ∈ st.dialed ∨ (p.2 = sid ∧ (ub = true → p.1.alloc_group ≠ "direct")))
    ∧ (∀ b ∈ (healInnerLoop ub sid envs st).attached,
          b ∈ st.attached ∨ (ub = true → b.alloc_group ≠ "direct"))
  | [], st => ⟨fun x hx => Or.inl hx, fun x hx => Or.inl hx⟩
  | env :: rest, st => by
    simp only [healInnerLoop]
    by_cases hd : 0 < st.deadCount
    · rw [if_pos hd]
      constructor
      · intro p hp
        rcases (healInnerLoop_mem ub sid rest (healInnerStep ub sid env st)).1 p hp with h | h
        · rcases (healInnerStep_mem ub sid env st).1 p h with h2 | h2
          · exact Or.inl h2
          · exact Or.inr h2
        · exact Or.inr h
      · intro b hb
        rcases (healInnerLoop_mem ub sid rest (healInnerStep ub sid env st)).2 b hb with h | h
        · rcases (healInnerStep_mem ub sid env st).2 b h with h2 | h2
          · exact Or.inl h2
          · exact Or.inr h2
        · exact Or.inr h
    · rw [if_neg hd]
      exact ⟨fun x hx => Or.inl hx, fun x hx => Or.inl hx⟩

/-- One outer-loop wake only appends dials that carry the session
identifier and respect the bridges-only policy. -/
theorem healerWake_mem (ub : Bool) (sid : String) (w : WakeEnv) (st : HealState) :
    (∀ p ∈ (healerWake ub sid w st).dialed,
        p ∈ st.dialed ∨ (p.2 = sid ∧ (ub = true → p.1.alloc_group ≠ "direct")))
  ∧ (∀ b ∈ (healerWake ub sid w st).attached,
        b ∈ st.attached ∨ (ub = true → b.alloc_group ≠ "direct")) := by
  obtain ⟨upgrade, rounds⟩ := w
  cases upgrade with
  | none => exact ⟨fun x hx => Or.inl hx, fun x hx => Or.inl hx⟩
  | some pruned =>
    simp only [healerWake]
    exact healInnerLoop_mem ub sid rounds _

/-- The healer task, over any trace of wakes, only appends dials that
carry the session identifier and respect the bridges-only policy. -/
theorem healerRun_mem (ub : Bool) (sid : String) :
    ∀ (wakes : List WakeEnv) (st : HealState),
      (∀ p ∈ (healerRun ub sid wakes st).dialed,
          p ∈ st.dialed ∨ (p.2 = sid ∧ (ub = true → p.1.alloc_group ≠ "direct")))
    ∧ (∀ b ∈ (healerRun ub sid wakes st).attached,
          b ∈ st.attached ∨ (ub = true → b.alloc_group ≠ "direct"))
  | [], st => ⟨fun x hx => Or.inl hx, fun x hx => Or.inl hx⟩
  | w :: ws, st => by
    simp only [healerRun]
    constructor
    · intro p hp
      rcases (healerRun_mem ub sid ws (healerWake ub sid w st)).1 p hp with h | h
      · rcases (healerWake_mem ub sid w st).1 p h with h2 | h2
        · exact Or.inl h2
        · exact Or.inr h2
      · exact Or.inr h
    · intro b hb
      rcases (healerRun_mem ub sid ws (healerWake ub sid w st)).2 b hb with h | h
      · rcases (healerWake_mem ub sid w st).2 b h with h2 | h2
        · exact Or.inl h2
        · exact Or.inr h2
      · exact Or.inr h

/-- C6: under bridges-only policy, no bridge of allocation group
`direct` is ever dialed or attached — not by the assembly fan-out, and
not by the healer (which starts from the empty trace) over any trace of
wakes and inner rounds. -/
theorem filter_soundness (bridges : List BridgeDescriptor) (sid : String)
    (ok : BridgeDescriptor → Bool) (wakes : List WakeEnv) :
    (∀ p ∈ assemblyDials true sid bridges, p.1.alloc_group ≠ "direct")
  ∧ (∀ b ∈ assemblyAttached true sid bridges ok, b.alloc_group ≠ "direct")
  ∧ (∀ p ∈ (healerRun true sid wakes initHealState).dialed, p.1.alloc_group ≠ "direct")
  ∧ (∀ b ∈ (healerRun true sid wakes initHealState).attached, b.alloc_group ≠ "direct") := by
  refine ⟨?_, ?_, ?_, ?_⟩
  · intro p hp
    exact (assemblyDials_mem true sid bridges p hp).2 rfl
  · intro b hb
    rcases List.mem_map.mp hb with ⟨p, hpf, hpb⟩
    have hpd := (List.mem_filter.mp hpf).1
    rw [← hpb]
    exact (assemblyDials_mem true sid bridges p hpd).2 rfl
  · intro p hp
    rcases (healerRun_mem true sid wakes initHealState).1 p hp with h | h
    · simp [initHealState] at h
    · exact h.2 rfl
  · intro b hb
    rcases (healerRun_mem true sid wakes initHealState).2 b hb with h | h
    · simp [initHealState] at h
    · exact h rfl

/-- C6 witness: the theorem applied to the list holding one `direct`
and one `cn1` bridge, at the dial the fan-out actually spawns. -/
theorem filter_soundness_witness :
    (demoProxyBridge, "s").1.alloc_group ≠ "direct" :=
  (filter_soundness [demoDirectBridge, demoProxyBridge] "s" (fun _ => true) []).1
    (demoProxyBridge, "s") (by decide)

/-- C7: the session identifier is the string `sess-` followed by the
decimal rendering of the session's random 128-bit value, and every dial
issued for the multiplex — by the assembly fan-out or by the healer
over any trace — passes exactly that string as its metadata. -/
theorem session_id_stability (r : Nat) (ub : Bool) (bridges : List BridgeDescriptor)
    (wakes : List WakeEnv) :
    (∀ p ∈ assemblyDials ub (sessIdOf r) bridges, p.2 = sessIdOf r)
  ∧ (∀ p ∈ (healerRun ub (sessIdOf r) wakes initHealState).dialed, p.2 = sessIdOf r) := by
  constructor
  · intro p hp
    exact (assemblyDials_mem ub (sessIdOf r) bridges p hp).1
  · intro p hp
    rcases (healerRun_mem ub (sessIdOf r) wakes initHealState).1 p hp with h | h
    · simp [initHealState] at h
    · exact h.1

/-- C7 witness: the theorem applied at a one-bridge list with the
session value 5. -/
theorem session_id_stability_witness :
    (demoProxyBridge, sessIdOf 5).2 = sessIdOf 5 :=
  (session_id_stability 5 true [demoProxyBridge] []).1
    (demoProxyBridge, sessIdOf 5) (by decide)

/-- Decoding inverts encoding on a single hex digit. -/
theorem hexDigitVal_hexDigitChar : ∀ n < 16, hexDigitVal (hexDigitChar n) = some n := by
  decide

/-- Hex digits are never the at-sign. -/
theorem hexDigitChar_ne_at : ∀ n < 16, hexDigitChar n ≠ '@' := by decide

/-- Hex decoding inverts hex encoding on byte lists. -/
theorem hexDecode_hexEncode : ∀ (bs : List Nat), (∀ b ∈ bs, b < 256) →
    hexDecode (hexEncode bs) = some bs
  | [], _ => rfl
  | b :: bs, h => by
    have hb : b < 256 := h b (List.mem_cons_self b bs)
    have hdiv : b / 16 < 16 := by omega
    have hmod : b % 16 < 16 := by omega
    simp only [hexEncode, hexDecode, hexDigitVal_hexDigitChar _ hdiv,
      hexDigitVal_hexDigitChar _ hmod,
      hexDecode_hexEncode bs (fun x hx => h x (List.mem_cons_of_mem b hx))]
    have hsum : 16 * (b / 16) + b % 16 = b := by omega
    rw [hsum]

/-- The hex encoding of a byte list never contains the at-sign. -/
theorem at_not_mem_hexEncode : ∀ (bs : List Nat), (∀ b ∈ bs, b < 256) →
    '@' ∉ hexEncode bs
  | [], _ => by simp [hexEncode]
  | b :: bs, h => by
    have hb : b < 256 := h b (List.mem_cons_self b bs)
    have hdiv : b / 16 < 16 := by omega
    have hmod : b % 16 < 16 := by omega
    simp only [hexEncode, List.mem_cons, not_or]
    refine ⟨?_, ?_, ?_⟩
    · exact fun hc => hexDigitChar_ne_at _ hdiv hc.symm
    · exact fun hc => hexDigitChar_ne_at _ hmod hc.symm
    · exact at_not_mem_hexEncode bs (fun x hx => h x (List.mem_cons_of_mem b hx))

/-- Splitting a separator-free string yields that one part. -/
theorem rustSplit_no_sep (sep : Char) : ∀ (cs : List Char), sep ∉ cs →
    rustSplit sep cs = [cs]
  | [], _ => rfl
  | c :: cs, h => by
    have h2 : ¬(sep = c ∨ sep ∈ cs) := fun hx => h (List.mem_cons.mpr hx)
    push_neg at h2
    simp only [rustSplit, if_neg (fun he : c = sep => h2.1 he.symm)]
    rw [rustSplit_no_sep sep cs h2.2]

/-- Splitting a string with exactly one separator, dividing two
separator-free halves, yields exactly those two parts. -/
theorem rustSplit_pair (sep : Char) : ∀ (xs ys : List Char), sep ∉ xs → sep ∉ ys →
    rustSplit sep (xs ++ sep :: ys) = [xs, ys]
  | [], ys, _, hy => by
    simp only [List.nil_append, rustSplit, eq_self_iff_true, if_true,
      rustSplit_no_sep sep ys hy]
  | x :: xs, ys, hx, hy => by
    have h2 : ¬(sep = x ∨ sep ∈ xs) := fun hm => hx (List.mem_cons.mpr hm)
    push_neg at h2
    show rustSplit sep (x :: (xs ++ sep :: ys)) = [x :: xs, ys]
    simp only [rustSplit, if_neg (fun he : x = sep => h2.1 he.symm)]
    rw [rustSplit_pair sep xs ys h2.2 hy]

/-- Decimal digit characters are digits. -/
theorem digitChar_isDigit : ∀ n < 10, (digitChar n).isDigit = true := by decide

/-- All characters produced by the decimal-rendering loop are digits,
provided the accumulator holds only digits. -/
theorem natCharsAux_digits : ∀ (fuel n : Nat) (acc : List Char),
    (∀ c ∈ acc, c.isDigit = true) → ∀ c ∈ natCharsAux fuel n acc, c.isDigit = true
  | 0, _, _, hacc => hacc
  | fuel + 1, n, acc, hacc => by
    simp only [natCharsAux]
    by_cases hn : n = 0
    · rw [if_pos hn]
      exact hacc
    · rw [if_neg hn]
      refine natCharsAux_digits fuel (n / 10) _ ?_
      intro c hc
      rcases List.mem_cons.mp hc with rfl | hc
      · exact digitChar_isDigit _ (Nat.mod_lt n (by omega))
      · exact hacc c hc

/-- All characters of a decimal rendering are digits. -/
theorem natChars_digits (n : Nat) : ∀ c ∈ natChars n, c.isDigit = true := by
  unfold natChars
  by_cases hn : n = 0
  · rw [if_pos hn]
    intro c hc
    rcases List.mem_singleton.mp hc with rfl
    decide
  · rw [if_neg hn]
    exact natCharsAux_digits (n + 1) n [] (by intro c hc; cases hc)

/-- The at-sign never appears in a decimal rendering. -/
theorem at_not_mem_natChars (n : Nat) : '@' ∉ natChars n := by
  intro h
  have := natChars_digits n '@' h
  exact absurd this (by decide)

/-- The at-sign never appears in the textual form of a socket address. -/
theorem at_not_mem_formatSockAddr (a : SockAddr) : '@' ∉ formatSockAddr a := by
  intro h
  unfold formatSockAddr at h
  rcases List.mem_append.mp h with h | h
  · rcases List.mem_append.mp h with h | h
    · rcases List.mem_append.mp h with h | h
      · rcases List.mem_append.mp h with h | h
        · exact at_not_mem_natChars _ h
        · rcases List.mem_cons.mp h with h | h
          · exact absurd h (by decide)
          · exact at_not_mem_natChars _ h
      · rcases List.mem_cons.mp h with h | h
        · exact absurd h (by decide)
        · exact at_not_mem_natChars _ h
    · rcases List.mem_cons.mp h with h | h
      · exact absurd h (by decide)
      · exact at_not_mem_natChars _ h
  · rcases List.mem_cons.mp h with h | h
    · exact absurd h (by decide)
    · exact at_not_mem_natChars _ h

/-- C8: the parser round-trips — for a 32-byte key and a socket address
whose textual form the (external) address codec parses back to itself,
parsing the formatted endpoint string (lowercase hex of the key, an
at-sign, the textual address) yields exactly that address-key pair. -/
theorem parse_format_round_trip (k : List Nat) (a : SockAddr)
    (hlen : k.length = 32) (hbytes : ∀ b ∈ k, b < 256)
    (ha : parseSockAddr (formatSockAddr a) = some a) :
    parse_independent_endpoint (formatEndpoint k a) = .ok (a, k) := by
  have hlist : (formatEndpoint k a).toList = hexEncode k ++ '@' :: formatSockAddr a := rfl
  have hsplit : rustSplit '@' (formatEndpoint k a).toList
      = [hexEncode k, formatSockAddr a] := by
    rw [hlist]
    exact rustSplit_pair '@' (hexEncode k) (formatSockAddr a)
      (at_not_mem_hexEncode k hbytes) (at_not_mem_formatSockAddr a)
  simp only [parse_independent_endpoint, hsplit, List.head?_cons,
    hexDecode_hexEncode k hbytes, hlen, if_true, List.get?_cons_succ,
    List.get?_cons_zero, ha]

/-- C8 witness: the round trip evaluated at the all-zero 32-byte key
and the address 127.0.0.1:9050. -/
theorem parse_format_round_trip_witness :
    parse_independent_endpoint (formatEndpoint (List.replicate 32 0) ⟨127, 0, 0, 1, 9050⟩)
      = .ok (⟨127, 0, 0, 1, 9050⟩, List.replicate 32 0) :=
  parse_format_round_trip (List.replicate 32 0) ⟨127, 0, 0, 1, 9050⟩ (by decide)
    (by decide) (by decide)

/-- C5 witness: the characterization applied at a concrete input whose
first part is not hex. -/
theorem parse_error_conditions_witness :
    parse_independent_endpoint "zz@x" = .err "PK is not hex" :=
  (parse_error_conditions "zz@x").1.mpr (by decide)
